import Mathlib

/-!
Verification of the framego model/ORM/serializer core against its
natural-language specification.  The Go source is shallowly embedded:
reflect types and interface values become inductive types, Go maps become
association lists with overwrite-on-insert, the database handle becomes an
abstract executor together with an explicit trace of executed statements.
-/

set_option autoImplicit false

namespace Framego

instance exceptDecEq {ε α : Type} [DecidableEq ε] [DecidableEq α] : DecidableEq (Except ε α)
  | .ok x, .ok y =>
    if h : x = y then isTrue (congrArg Except.ok h)
    else isFalse (fun hh => h (Except.ok.inj hh))
  | .error e, .error f =>
    if h : e = f then isTrue (congrArg Except.error h)
    else isFalse (fun hh => h (Except.error.inj hh))
  | .ok _, .error _ => isFalse (fun hh => Except.noConfusion hh)
  | .error _, .ok _ => isFalse (fun hh => Except.noConfusion hh)

/-- The Go reflect kinds/types the framework inspects (`reflect.Kind` plus
the special-cased `time.Time` struct type). -/
inductive GoType where
  | tBool
  | tInt
  | tInt8
  | tInt16
  | tInt32
  | tInt64
  | tUint
  | tUint8
  | tUint16
  | tUint32
  | tUint64
  | tFloat32
  | tFloat64
  | tString
  | tTime
  | tOther
  deriving DecidableEq

/-- Go `interface{}` values as they flow through the framework: each numeric
constructor records the static Go type of the boxed value.  Floats are
modelled as rationals (the framework performs no float arithmetic, only
comparisons and exact int-to-float conversions on small values). -/
inductive GoValue where
  | vNil
  | vBool (b : Bool)
  | vInt (n : Int)
  | vInt8 (n : Int)
  | vInt16 (n : Int)
  | vInt32 (n : Int)
  | vInt64 (n : Int)
  | vUint (n : Nat)
  | vUint8 (n : Nat)
  | vUint16 (n : Nat)
  | vUint32 (n : Nat)
  | vUint64 (n : Nat)
  | vFloat32 (q : ℚ)
  | vFloat64 (q : ℚ)
  | vString (s : String)
  | vTime
  deriving DecidableEq

/-- `reflect.TypeOf` on a boxed value (never consulted on nil by the code). -/
def GoValue.typeOf : GoValue → GoType
  | .vNil => .tOther
  | .vBool _ => .tBool
  | .vInt _ => .tInt
  | .vInt8 _ => .tInt8
  | .vInt16 _ => .tInt16
  | .vInt32 _ => .tInt32
  | .vInt64 _ => .tInt64
  | .vUint _ => .tUint
  | .vUint8 _ => .tUint8
  | .vUint16 _ => .tUint16
  | .vUint32 _ => .tUint32
  | .vUint64 _ => .tUint64
  | .vFloat32 _ => .tFloat32
  | .vFloat64 _ => .tFloat64
  | .vString _ => .tString
  | .vTime => .tTime

/-- Go `len` on a string (byte length of the UTF-8 encoding). -/
def goLen (s : String) : Nat := s.utf8ByteSize

section Assoc

variable {α : Type}

/-- Lookup in an association list (models Go map indexing `m[k]`). -/
def lookupA (k : String) : List (String × α) → Option α
  | [] => none
  | (k', v) :: rest => if k' = k then some v else lookupA k rest

/-- Insert with overwrite (models Go map assignment `m[k] = v`). -/
def insertA (k : String) (v : α) : List (String × α) → List (String × α)
  | [] => [(k, v)]
  | (k', v') :: rest => if k' = k then (k, v) :: rest else (k', v') :: insertA k v rest

@[simp] theorem lookupA_nil (k : String) : lookupA (α := α) k [] = none := rfl

@[simp] theorem lookupA_cons (k k' : String) (v : α) (l : List (String × α)) :
    lookupA k ((k', v) :: l) = if k' = k then some v else lookupA k l := rfl

@[simp] theorem insertA_nil (k : String) (v : α) : insertA k v ([] : List (String × α)) = [(k, v)] := rfl

@[simp] theorem insertA_cons (k k' : String) (v v' : α) (l : List (String × α)) :
    insertA k v ((k', v') :: l) =
      if k' = k then (k, v) :: l else (k', v') :: insertA k v l := rfl

@[simp] theorem lookupA_insertA_self (k : String) (v : α) (l : List (String × α)) :
    lookupA k (insertA k v l) = some v := by
  induction l with
  | nil => simp
  | cons p rest ih =>
    obtain ⟨k', v'⟩ := p
    by_cases h : k' = k <;> simp [h, ih]

theorem lookupA_insertA_ne (k k' : String) (v : α) (l : List (String × α)) (h : k' ≠ k) :
    lookupA k (insertA k' v l) = lookupA k l := by
  induction l with
  | nil => simp [h]
  | cons p rest ih =>
    obtain ⟨k₀, v₀⟩ := p
    by_cases h₀ : k₀ = k'
    · subst h₀; simp [h]
    · by_cases h₁ : k₀ = k <;> simp [h₀, h₁, ih, Ne.symm h]

theorem lookupA_isSome_of_mem {k : String} {v : α} {l : List (String × α)}
    (h : (k, v) ∈ l) : lookupA k l ≠ none := by
  induction l with
  | nil => simp at h
  | cons p rest ih =>
    obtain ⟨k', v'⟩ := p
    rcases List.mem_cons.mp h with h₁ | h₂
    · obtain ⟨rfl, rfl⟩ := Prod.mk.injEq .. ▸ h₁
      simp
    · by_cases hk : k' = k <;> simp [hk, ih h₂]

theorem mem_of_lookupA_eq_some {k : String} {v : α} {l : List (String × α)}
    (h : lookupA k l = some v) : (k, v) ∈ l := by
  induction l with
  | nil => simp at h
  | cons p rest ih =>
    obtain ⟨k', v'⟩ := p
    by_cases hk : k' = k
    · subst hk
      simp at h
      simp [h]
    · simp [hk] at h
      exact List.mem_cons_of_mem _ (ih h)

theorem lookupA_eq_some_of_mem_nodup {k : String} {v : α} {l : List (String × α)}
    (hnd : (l.map Prod.fst).Nodup) (h : (k, v) ∈ l) : lookupA k l = some v := by
  induction l with
  | nil => simp at h
  | cons p rest ih =>
    obtain ⟨k', v'⟩ := p
    simp only [List.map_cons, List.nodup_cons] at hnd
    rcases List.mem_cons.mp h with h₁ | h₂
    · obtain ⟨rfl, rfl⟩ := Prod.mk.injEq .. ▸ h₁
      simp
    · have hne : k' ≠ k := by
        intro hkk
        subst hkk
        exact hnd.1 (List.mem_map.mpr ⟨(k', v), h₂, rfl⟩)
      simp [hne, ih hnd.2 h₂]

end Assoc

/-! ## Models (pkg/models) -/

/-- A foreign-key relationship on a model field. -/
structure ForeignKey where
  model : String
  field : String
  onDelete : String
  onUpdate : String
  deriving DecidableEq

/-- A database column description (`models.Field`). -/
structure ModelField where
  name : String
  type : GoType
  primaryKey : Bool := false
  autoIncrement : Bool := false
  unique : Bool := false
  notNull : Bool := false
  default : Option GoValue := none
  maxLength : Int := 0
  foreignKey : Option ForeignKey := none
  deriving DecidableEq

/-- A model: a table name plus a field map (`models.Model`). -/
structure Model where
  tableName : String
  fields : List (String × ModelField)
  deriving DecidableEq

/-- `Model.Validate`: at least one field, and at least one primary-key field. -/
def Model.validate (m : Model) : Except String Unit :=
  if m.fields.length = 0 then
    .error ("model " ++ m.tableName ++ " has no fields")
  else if m.fields.any (fun p => p.2.primaryKey) then
    .ok ()
  else
    .error ("model " ++ m.tableName ++ " has no primary key")

/-! ## The ORM registry and its operations -/

/-- The ORM state that matters to the modelled operations: the SQL dialect
and the table-name-keyed model registry. -/
structure ORM where
  driver : String
  models : List (String × Model)
  deriving DecidableEq

/-- `ORM.RegisterModel`: validate, then insert into the registry keyed by
table name; the Go method mutates the receiver, so the embedding returns the
error alongside the updated state. -/
def ORM.registerModel (o : ORM) (m : Model) : Except String Unit × ORM :=
  match m.validate with
  | .error e => (.error e, o)
  | .ok _ => (.ok (), { o with models := insertA m.tableName m o.models })

/-- Whether an `Except` result is a success. -/
def exceptOk {ε α : Type} : Except ε α → Bool
  | .ok _ => true
  | .error _ => false

/-- C1: `RegisterModel(model)` succeeds iff the model has at least one field
and at least one primary-key field; on success the model is inserted into
the registry keyed by its table name (overwriting any previous entry under
that name, and leaving the dialect untouched); on failure a validation error
whose message names the table is returned and the registry is unchanged. -/
theorem registerModel_correct (o : ORM) (m : Model) :
    (exceptOk (o.registerModel m).1 = true ↔
      (m.fields ≠ [] ∧ m.fields.any (fun p => p.2.primaryKey) = true))
    ∧ (exceptOk (o.registerModel m).1 = true →
        (o.registerModel m).2.models = insertA m.tableName m o.models
        ∧ lookupA m.tableName (o.registerModel m).2.models = some m
        ∧ (o.registerModel m).2.driver = o.driver)
    ∧ (exceptOk (o.registerModel m).1 = false →
        (o.registerModel m).2 = o
        ∧ ∃ pre post, (o.registerModel m).1 = .error (pre ++ m.tableName ++ post)) := by
  refine ⟨?_, ?_, ?_⟩
  · unfold ORM.registerModel Model.validate
    by_cases h0 : m.fields.length = 0
    · have : m.fields = [] := List.length_eq_zero.mp h0
      simp [h0, this, exceptOk]
    · have hne : m.fields ≠ [] := by
        intro h
        exact h0 (by simp [h])
      by_cases hpk : m.fields.any (fun p => p.2.primaryKey) = true
      · simp [h0, hpk, exceptOk, hne]
      · simp [h0, hpk, exceptOk, hne]
  · intro h
    unfold ORM.registerModel Model.validate at *
    by_cases h0 : m.fields.length = 0
    · simp [h0, exceptOk] at h
    · by_cases hpk : m.fields.any (fun p => p.2.primaryKey) = true
      · simp [h0, hpk, exceptOk]
      · simp [h0, hpk, exceptOk] at h
  · intro h
    unfold ORM.registerModel Model.validate at *
    by_cases h0 : m.fields.length = 0
    · refine ⟨by simp [h0], "model ", " has no fields", by simp [h0]⟩
    · by_cases hpk : m.fields.any (fun p => p.2.primaryKey) = true
      · simp [h0, hpk, exceptOk] at h
      · refine ⟨by simp [h0, hpk], "model ", " has no primary key", by simp [h0, hpk]⟩

/-- A one-field model with a primary key, used as a concrete witness input. -/
def demoModel : Model :=
  { tableName := "users"
    fields := [("id", { name := "id", type := GoType.tInt, primaryKey := true })] }

/-- A model with a field but no primary key, used as a concrete witness input. -/
def demoModelNoPk : Model :=
  { tableName := "users"
    fields := [("id", { name := "id", type := GoType.tInt })] }

/-- Witness for `registerModel_correct`: registration of a valid one-field
model succeeds and stores it; registration of a primary-key-less model leaves
the registry unchanged. -/
theorem registerModel_correct_witness :
    lookupA "users" ((ORM.mk "sqlite3" []).registerModel demoModel).2.models = some demoModel
    ∧ ((ORM.mk "sqlite3" []).registerModel demoModelNoPk).2 = ORM.mk "sqlite3" [] := by
  constructor
  · exact ((registerModel_correct (ORM.mk "sqlite3" []) demoModel).2.1 (by decide)).2.1
  · exact ((registerModel_correct (ORM.mk "sqlite3" []) demoModelNoPk).2.2 (by decide)).1

/-! ## Serializer (pkg/serializer) -/

/-- The library validators, represented by their defining data; the Go source
stores them as closures built by the correspondingly named constructors. -/
inductive ValidatorSpec where
  | maxLen (n : Int)
  | minLen (n : Int)
  | regexV (pattern : String)
  | emailV
  | rangeV (lo hi : ℚ)
  deriving DecidableEq

/-- The numeric type switch of `RangeValidator`: normalize any numeric Go
value to a 64-bit float (modelled exactly as a rational). -/
def GoValue.toNumber : GoValue → Option ℚ
  | .vInt n => some (n : ℚ)
  | .vInt8 n => some (n : ℚ)
  | .vInt16 n => some (n : ℚ)
  | .vInt32 n => some (n : ℚ)
  | .vInt64 n => some (n : ℚ)
  | .vUint n => some (n : ℚ)
  | .vUint8 n => some (n : ℚ)
  | .vUint16 n => some (n : ℚ)
  | .vUint32 n => some (n : ℚ)
  | .vUint64 n => some (n : ℚ)
  | .vFloat32 q => some q
  | .vFloat64 q => some q
  | _ => none

/-- Run one library validator on a value, exactly as the Go closures do. -/
def runValidator : ValidatorSpec → GoValue → Except String Unit
  | .maxLen n, v =>
    match v with
    | .vString s =>
      if (goLen s : Int) > n then
        .error ("string length exceeds maximum of " ++ toString n)
      else .ok ()
    | _ => .error "value is not a string"
  | .minLen n, v =>
    match v with
    | .vString s =>
      if (goLen s : Int) < n then
        .error ("string length is less than minimum of " ++ toString n)
      else .ok ()
    | _ => .error "value is not a string"
  | .regexV _, v =>
    match v with
    | .vString _ => .ok ()
    | _ => .error "value is not a string"
  | .emailV, v =>
    match v with
    | .vString s => if s.contains '@' then .ok () else .error "invalid email address"
    | _ => .error "value is not a string"
  | .rangeV lo hi, v =>
    match v.toNumber with
    | none => .error "value is not a number"
    | some num =>
      if num < lo ∨ num > hi then
        .error ("number must be between " ++ toString lo ++ " and " ++ toString hi)
      else .ok ()

/-- A serializer field (`serializer.Field`). -/
structure SField where
  name : String
  type : GoType
  required : Bool := false
  readOnly : Bool := false
  writeOnly : Bool := false
  default : Option GoValue := none
  validators : List ValidatorSpec := []
  sourceField : String
  errorMessages : List (String × String) := []
  deriving DecidableEq

/-- A serializer: the model it was built from plus its field map. -/
structure Serializer where
  model : Model
  fields : List (String × SField)
  deriving DecidableEq

/-- How `serializer.New` derives one serializer field from a model field:
required iff not-null and no default, plus an automatic max-length validator
for string fields with a positive max length. -/
def deriveField (n : String) (mf : ModelField) : SField :=
  { name := n
    type := mf.type
    required := mf.notNull && mf.default.isNone
    sourceField := n
    validators :=
      if 0 < mf.maxLength ∧ mf.type = GoType.tString then [ValidatorSpec.maxLen mf.maxLength]
      else [] }

/-- `serializer.New`: auto-generate the field map from the model's fields. -/
def newSerializer (m : Model) : Serializer :=
  { model := m
    fields := m.fields.foldl (fun acc p => insertA p.1 (deriveField p.1 p.2) acc) [] }

/-- The zero-valued field `Serializer.AddField` starts from before applying
the functional options. -/
def freshField (name : String) (ty : GoType) : SField :=
  { name := name, type := ty, sourceField := name }

/-- `Serializer.AddField`: build a fresh field, apply the options in order,
and store it under the given name (overwriting any existing field). -/
def Serializer.addField (s : Serializer) (name : String) (ty : GoType)
    (options : List (SField → SField)) : Serializer :=
  { s with fields := insertA name (options.foldl (fun f o => o f) (freshField name ty)) s.fields }

/-- `serializer.WithRequired`. -/
def withRequired : SField → SField := fun f => { f with required := true }

/-- `serializer.WithReadOnly`. -/
def withReadOnly : SField → SField := fun f => { f with readOnly := true }

/-- `serializer.WithWriteOnly`. -/
def withWriteOnly : SField → SField := fun f => { f with writeOnly := true }

/-- `serializer.WithDefault`. -/
def withDefault (v : GoValue) : SField → SField := fun f => { f with default := some v }

/-- `serializer.WithValidator`. -/
def withValidator (v : ValidatorSpec) : SField → SField :=
  fun f => { f with validators := f.validators ++ [v] }

/-- `serializer.WithSourceField`. -/
def withSourceField (src : String) : SField → SField := fun f => { f with sourceField := src }

/-- The type-compatibility check at the top of `Serializer.validateField`:
skipped for nil values, satisfied on exact type match, and for `time.Time`
fields a string is also accepted (parsing is an acknowledged TODO). -/
def typeCheck (field : SField) (name : String) (value : GoValue) : Except String Unit :=
  if value = .vNil then .ok ()
  else if value.typeOf = field.type then .ok ()
  else if field.type = GoType.tTime then
    match value with
    | .vString _ => .ok ()
    | _ => .error ("field " ++ name ++ " has invalid type: expected time.Time or string")
  else .error ("field " ++ name ++ " has invalid type")

/-- Run a validator chain in declaration order, returning the first failure. -/
def runValidators : List ValidatorSpec → GoValue → Except String Unit
  | [], _ => .ok ()
  | v :: rest, value =>
    match runValidator v value with
    | .error e => .error e
    | .ok _ => runValidators rest value

/-- `Serializer.validateField`: look the field up (error when absent), check
the type, then run the field's validator chain. -/
def Serializer.validateField (s : Serializer) (name : String) (value : GoValue) :
    Except String Unit :=
  match lookupA name s.fields with
  | none => .error ("field " ++ name ++ " not found")
  | some field =>
    match typeCheck field name value with
    | .error e => .error e
    | .ok _ => runValidators field.validators value

/-- Default-filling pass of `Serializer.Deserialize`: for every non-read-only
field that declares a default and whose name is absent from the payload,
store the default under the field's source name. -/
def applyDefaultsAux (data : List (String × GoValue)) :
    List (String × SField) → List (String × GoValue) → List (String × GoValue)
  | [], acc => acc
  | p :: rest, acc =>
    applyDefaultsAux data rest
      (if p.2.readOnly then acc
       else
         match p.2.default with
         | some d => if lookupA p.1 data = none then insertA p.2.sourceField d acc else acc
         | none => acc)

/-- The default-filling pass started on an empty result. -/
def applyDefaults (s : Serializer) (data : List (String × GoValue)) :
    List (String × GoValue) :=
  applyDefaultsAux data s.fields []

/-- Copy-and-validate pass of `Serializer.Deserialize`: skip payload keys not
in the field set, skip read-only fields, validate everything else and store
the value under the field's source name; the first validation failure is
returned. -/
def copyValidate (s : Serializer) :
    List (String × GoValue) → List (String × GoValue) →
      Except String (List (String × GoValue))
  | [], acc => .ok acc
  | (name, v) :: rest, acc =>
    match lookupA name s.fields with
    | none => copyValidate s rest acc
    | some field =>
      if field.readOnly then copyValidate s rest acc
      else
        match s.validateField name v with
        | .error e => .error e
        | .ok _ => copyValidate s rest (insertA field.sourceField v acc)

/-- Required-field pass of `Serializer.Deserialize`: fail on the first
required field whose source name is absent from the result. -/
def checkRequired (s : Serializer) (result : List (String × GoValue)) :
    Except String (List (String × GoValue)) :=
  match s.fields.find? (fun p => p.2.required && (lookupA p.2.sourceField result).isNone) with
  | some p => .error ("field " ++ p.1 ++ " is required")
  | none => .ok result

/-- `Serializer.Deserialize`: defaults, then validated copy, then the
required-field check. -/
def Serializer.deserialize (s : Serializer) (data : List (String × GoValue)) :
    Except String (List (String × GoValue)) :=
  match copyValidate s data (applyDefaults s data) with
  | .error e => .error e
  | .ok r => checkRequired s r

/-- The per-key pass of `Serializer.Validate`: run `validateField` on every
supplied key, returning the first failure. -/
def validateAll (s : Serializer) : List (String × GoValue) → Except String Unit
  | [] => .ok ()
  | (name, v) :: rest =>
    match s.validateField name v with
    | .error e => .error e
    | .ok _ => validateAll s rest

/-- `Serializer.Validate`: required fields must be present under their own
names in the payload, then every supplied key is validated. -/
def Serializer.validate (s : Serializer) (data : List (String × GoValue)) :
    Except String Unit :=
  match s.fields.find? (fun p => p.2.required && (lookupA p.1 data).isNone) with
  | some p => .error ("field " ++ p.1 ++ " is required")
  | none => validateAll s data

/-! ### Serialize inputs -/

/-- One exported-or-not struct field with its JSON tag, as reflection sees it. -/
structure GoStructField where
  goName : String
  jsonTag : String
  exported : Bool
  value : GoValue
  deriving DecidableEq

/-- The shapes `Serializer.Serialize` distinguishes via reflection: a struct,
a string-keyed map, a pointer (dereferenced once), or anything else. -/
inductive GoData where
  | structData (fields : List GoStructField)
  | mapData (entries : List (String × GoValue))
  | ptr (inner : GoData)
  | otherData
  deriving DecidableEq

/-- The single pointer dereference at the top of `Serializer.Serialize`. -/
def derefOnce : GoData → GoData
  | .ptr d => d
  | d => d

/-- Whether a (dereferenced) value is struct-like or map-like. -/
def isStructOrMap : GoData → Bool
  | .structData _ => true
  | .mapData _ => true
  | _ => false

/-- The output key of a struct field: the field name, or the part of the
JSON tag before the first comma; `json:"-"` fields are skipped. -/
def jsonFieldName (f : GoStructField) : Option String :=
  if f.jsonTag = "" then some f.goName
  else
    match (f.jsonTag.splitOn ",").headD "" with
    | "-" => none
    | first => some first

/-- One step of the struct branch of `Serializer.Serialize`. -/
def serializeStructStep (s : Serializer) (acc : List (String × GoValue))
    (f : GoStructField) : List (String × GoValue) :=
  if f.exported = false then acc
  else
    match jsonFieldName f with
    | none => acc
    | some name =>
      match lookupA name s.fields with
      | none => acc
      | some sf => if sf.writeOnly then acc else insertA name f.value acc

/-- One step of the map branch of `Serializer.Serialize`. -/
def serializeMapStep (s : Serializer) (acc : List (String × GoValue))
    (p : String × GoValue) : List (String × GoValue) :=
  match lookupA p.1 s.fields with
  | none => acc
  | some sf => if sf.writeOnly then acc else insertA p.1 p.2 acc

/-- `Serializer.Serialize`: dereference once, fail unless struct- or
map-shaped, then project the input through the field set, skipping
write-only fields and keys absent from the field set. -/
def Serializer.serialize (s : Serializer) (data : GoData) :
    Except String (List (String × GoValue)) :=
  match derefOnce data with
  | .structData fs => .ok (fs.foldl (serializeStructStep s) [])
  | .mapData entries => .ok (entries.foldl (serializeMapStep s) [])
  | _ => .error "data must be a struct, a map, or a pointer to a struct"

/-! ## SQL generation and CRUD (pkg orm) -/

/-- `getSQLType`: the fixed semantic-type to SQL-column-type mapping; the
`time.Time` struct type lands in the default branch of the Go kind switch
and is mapped per dialect, and any other unrecognized kind becomes TEXT. -/
def getSQLType (field : ModelField) (driver : String) : String :=
  match field.type with
  | .tBool => "BOOLEAN"
  | .tInt => "INTEGER"
  | .tInt8 => "INTEGER"
  | .tInt16 => "INTEGER"
  | .tInt32 => "INTEGER"
  | .tUint => "INTEGER"
  | .tUint8 => "INTEGER"
  | .tUint16 => "INTEGER"
  | .tUint32 => "INTEGER"
  | .tInt64 => "BIGINT"
  | .tUint64 => "BIGINT"
  | .tFloat32 => "REAL"
  | .tFloat64 => "REAL"
  | .tString =>
    if 0 < field.maxLength then "VARCHAR(" ++ toString field.maxLength ++ ")"
    else "TEXT"
  | .tTime => if driver = "mysql" then "DATETIME" else "TIMESTAMP"
  | .tOther => "TEXT"

/-- How `GoValue` defaults are printed into DDL (`fmt.Sprintf("%v", ...)`). -/
def GoValue.show : GoValue → String
  | .vNil => "<nil>"
  | .vBool b => if b then "true" else "false"
  | .vInt n => toString n
  | .vInt8 n => toString n
  | .vInt16 n => toString n
  | .vInt32 n => toString n
  | .vInt64 n => toString n
  | .vUint n => toString n
  | .vUint8 n => toString n
  | .vUint16 n => toString n
  | .vUint32 n => toString n
  | .vUint64 n => toString n
  | .vFloat32 q => toString q
  | .vFloat64 q => toString q
  | .vString s => s
  | .vTime => "time.Time"

/-- The constraint clauses `createTable` appends after the column type:
NOT NULL / UNIQUE / DEFAULT / AUTO_INCREMENT, in source order. -/
def buildColumnSuffix (field : ModelField) (driver : String) : String :=
  (if field.notNull then " NOT NULL" else "")
    ++ (if field.unique then " UNIQUE" else "")
    ++ (match field.default with
        | some d => " DEFAULT " ++ d.show
        | none => "")
    ++ (if field.autoIncrement && driver = "mysql" then " AUTO_INCREMENT" else "")

/-- The column text `createTable` emits for one field: name, SQL type, then
the constraint clauses. -/
def buildColumn (name : String) (field : ModelField) (driver : String) : String :=
  name ++ " " ++ getSQLType field driver ++ buildColumnSuffix field driver

/-- An executed database statement: the SQL text and its bound arguments. -/
inductive DBOp where
  | exec (query : String) (args : List GoValue)
  deriving DecidableEq

/-- The per-dialect placeholder (`$i` on postgres, `?` elsewhere). -/
def buildPlaceholder (driver : String) (i : Nat) : String :=
  if driver = "postgres" then "$" ++ toString i else "?"

/-- The column/placeholder/value collection loop of `ORM.Create`, failing on
the first payload key that is not a declared field of the model. -/
def collectInsertCols (driver : String) (model : Model) (tableName : String) :
    List (String × GoValue) → Nat →
      Except String (List String × List String × List GoValue)
  | [], _ => .ok ([], [], [])
  | (col, v) :: rest, i =>
    match lookupA col model.fields with
    | none => .error ("field " ++ col ++ " not found in model " ++ tableName)
    | some _ =>
      match collectInsertCols driver model tableName rest (i + 1) with
      | .error e => .error e
      | .ok (cols, phs, vals) =>
        .ok (col :: cols, buildPlaceholder driver i :: phs, v :: vals)

/-- `ORM.Create`: fail when the table is unregistered or a payload key is
undeclared (executing nothing), otherwise build the INSERT statement and
execute it through the abstract database, recording the execution. -/
def ORM.create (o : ORM) (db : String → List GoValue → Except String Int)
    (tableName : String) (data : List (String × GoValue)) :
    Except String Int × List DBOp :=
  match lookupA tableName o.models with
  | none => (.error ("model " ++ tableName ++ " not registered"), [])
  | some model =>
    match collectInsertCols o.driver model tableName data 1 with
    | .error e => (.error e, [])
    | .ok (cols, phs, vals) =>
      let query := "INSERT INTO " ++ tableName ++ " (" ++ String.intercalate ", " cols
        ++ ") VALUES (" ++ String.intercalate ", " phs ++ ")"
      (db query vals, [DBOp.exec query vals])

/-- The first primary-key field of a model's field list (Go finds it with a
break-on-first loop over the field map). -/
def firstPrimaryKey : List (String × ModelField) → Option String
  | [] => none
  | (n, f) :: rest => if f.primaryKey then some n else firstPrimaryKey rest

/-- The SET-clause collection loop of `ORM.Update`: fail on undeclared keys,
skip the primary-key column, and number placeholders over the kept columns
only; also returns the next placeholder index for the WHERE clause. -/
def collectSetCols (driver : String) (model : Model) (tableName : String) (pk : String) :
    List (String × GoValue) → Nat →
      Except String (List String × List GoValue × Nat)
  | [], i => .ok ([], [], i)
  | (col, v) :: rest, i =>
    match lookupA col model.fields with
    | none => .error ("field " ++ col ++ " not found in model " ++ tableName)
    | some _ =>
      if col = pk then collectSetCols driver model tableName pk rest i
      else
        match collectSetCols driver model tableName pk rest (i + 1) with
        | .error e => .error e
        | .ok (sets, vals, fin) =>
          .ok ((col ++ " = " ++ buildPlaceholder driver i) :: sets, v :: vals, fin)

/-- `ORM.Update`: fail when the table is unregistered, the model has no
primary key, or a payload key is undeclared (executing nothing), otherwise
build and execute the UPDATE statement with the id appended to the bound
values. -/
def ORM.update (o : ORM) (db : String → List GoValue → Except String Int)
    (tableName : String) (id : GoValue) (data : List (String × GoValue)) :
    Except String Unit × List DBOp :=
  match lookupA tableName o.models with
  | none => (.error ("model " ++ tableName ++ " not registered"), [])
  | some model =>
    match firstPrimaryKey model.fields with
    | none => (.error ("model " ++ tableName ++ " has no primary key"), [])
    | some pk =>
      match collectSetCols o.driver model tableName pk data 1 with
      | .error e => (.error e, [])
      | .ok (sets, vals, fin) =>
        let query := "UPDATE " ++ tableName ++ " SET " ++ String.intercalate ", " sets
          ++ " WHERE " ++ pk ++ " = " ++ buildPlaceholder o.driver fin
        match db query (vals ++ [id]) with
        | .error e => (.error e, [DBOp.exec query (vals ++ [id])])
        | .ok _ => (.ok (), [DBOp.exec query (vals ++ [id])])

/-! ## Claim theorems: validators -/

/-- C4 counterexample: the validator produced by `RegexValidator` is not a
no-op on every input — a non-string value is rejected with a
value-is-not-a-string error, contradicting the claim that it succeeds for
every input value. -/
theorem regexValidator_rejects_nonstring :
    runValidator (ValidatorSpec.regexV "abc") (GoValue.vInt 5)
      = .error "value is not a string" := by decide

/-- C4 (amended): `RegexValidator(pattern)` performs no regex matching — it
succeeds on every string value regardless of the pattern, and fails with a
value-is-not-a-string error on every non-string value. -/
theorem regexValidator_amended (pat : String) :
    (∀ s, runValidator (ValidatorSpec.regexV pat) (GoValue.vString s) = .ok ())
    ∧ (∀ v : GoValue, (∀ s, v ≠ GoValue.vString s) →
        runValidator (ValidatorSpec.regexV pat) v = .error "value is not a string") := by
  constructor
  · intro s
    rfl
  · intro v hv
    cases v
    case vString s => exact absurd rfl (hv s)
    all_goals rfl

/-- Witness for `regexValidator_amended` at a concrete pattern, a concrete
string value, and a concrete non-string value. -/
theorem regexValidator_amended_witness :
    runValidator (ValidatorSpec.regexV "[a-z]+") (GoValue.vString "abc") = .ok ()
    ∧ runValidator (ValidatorSpec.regexV "[a-z]+") GoValue.vTime
        = .error "value is not a string" :=
  ⟨(regexValidator_amended "[a-z]+").1 "abc",
   (regexValidator_amended "[a-z]+").2 GoValue.vTime (fun _ h => GoValue.noConfusion h)⟩

/-- C8: `RangeValidator(0.01, 1000000.0)` accepts 500.0 and rejects -1 and
2000000 (whether supplied as ints or floats); `MinLengthValidator(8)` rejects
every 7-byte string and accepts every 8-byte string. -/
theorem validator_examples :
    runValidator (ValidatorSpec.rangeV (1/100) 1000000) (GoValue.vFloat64 500) = .ok ()
    ∧ runValidator (ValidatorSpec.rangeV (1/100) 1000000) (GoValue.vInt (-1)) ≠ .ok ()
    ∧ runValidator (ValidatorSpec.rangeV (1/100) 1000000) (GoValue.vFloat64 (-1)) ≠ .ok ()
    ∧ runValidator (ValidatorSpec.rangeV (1/100) 1000000) (GoValue.vInt 2000000) ≠ .ok ()
    ∧ runValidator (ValidatorSpec.rangeV (1/100) 1000000) (GoValue.vFloat64 2000000) ≠ .ok ()
    ∧ (∀ s : String, goLen s = 7 →
        ∃ e, runValidator (ValidatorSpec.minLen 8) (GoValue.vString s) = .error e)
    ∧ (∀ s : String, goLen s = 8 →
        runValidator (ValidatorSpec.minLen 8) (GoValue.vString s) = .ok ()) := by
  refine ⟨?_, ?_, ?_, ?_, ?_, ?_, ?_⟩
  · show (if (500 : ℚ) < 1/100 ∨ (500 : ℚ) > 1000000 then _ else Except.ok ()) = Except.ok ()
    rw [if_neg]
    push_neg
    constructor <;> norm_num
  · show (if ((-1 : Int) : ℚ) < 1/100 ∨ ((-1 : Int) : ℚ) > 1000000 then Except.error _
          else Except.ok ()) ≠ Except.ok ()
    rw [if_pos (Or.inl (by norm_num))]
    exact fun h => Except.noConfusion h
  · show (if (-1 : ℚ) < 1/100 ∨ (-1 : ℚ) > 1000000 then Except.error _
          else Except.ok ()) ≠ Except.ok ()
    rw [if_pos (Or.inl (by norm_num))]
    exact fun h => Except.noConfusion h
  · show (if ((2000000 : Int) : ℚ) < 1/100 ∨ ((2000000 : Int) : ℚ) > 1000000 then Except.error _
          else Except.ok ()) ≠ Except.ok ()
    rw [if_pos (Or.inr (by norm_num))]
    exact fun h => Except.noConfusion h
  · show (if (2000000 : ℚ) < 1/100 ∨ (2000000 : ℚ) > 1000000 then Except.error _
          else Except.ok ()) ≠ Except.ok ()
    rw [if_pos (Or.inr (by norm_num))]
    exact fun h => Except.noConfusion h
  · intro s h
    have hlt : (goLen s : Int) < 8 := by rw [h]; norm_num
    exact ⟨_, if_pos hlt⟩
  · intro s h
    show (if (goLen s : Int) < 8 then Except.error _ else Except.ok ()) = Except.ok ()
    rw [h]
    norm_num

/-- Witness for `validator_examples` at concrete 7- and 8-byte strings. -/
theorem validator_examples_witness :
    (∃ e, runValidator (ValidatorSpec.minLen 8) (GoValue.vString "abcdefg") = .error e)
    ∧ runValidator (ValidatorSpec.minLen 8) (GoValue.vString "abcdefgh") = .ok () :=
  ⟨validator_examples.2.2.2.2.2.1 "abcdefg" (by decide),
   validator_examples.2.2.2.2.2.2 "abcdefgh" (by decide)⟩

/-! ## Claim theorems: SQL type mapping -/

/-- C6: the SQL column type emitted during table creation follows the fixed
mapping — bool to BOOLEAN, the 32-bit-and-smaller integer kinds (including
Go's `int`/`uint`) to INTEGER, 64-bit integers to BIGINT, floats to REAL,
strings to VARCHAR(max_length) when positive and TEXT otherwise, and
timestamps to DATETIME on mysql and TIMESTAMP on other dialects; the column
text emitted by `createTable` starts with the name and this type. -/
theorem getSQLType_mapping (f : ModelField) (d : String) :
    (f.type = GoType.tBool → getSQLType f d = "BOOLEAN")
    ∧ (f.type = GoType.tInt ∨ f.type = GoType.tInt8 ∨ f.type = GoType.tInt16
        ∨ f.type = GoType.tInt32 ∨ f.type = GoType.tUint ∨ f.type = GoType.tUint8
        ∨ f.type = GoType.tUint16 ∨ f.type = GoType.tUint32 →
        getSQLType f d = "INTEGER")
    ∧ (f.type = GoType.tInt64 ∨ f.type = GoType.tUint64 → getSQLType f d = "BIGINT")
    ∧ (f.type = GoType.tFloat32 ∨ f.type = GoType.tFloat64 → getSQLType f d = "REAL")
    ∧ (f.type = GoType.tString →
        getSQLType f d =
          if 0 < f.maxLength then "VARCHAR(" ++ toString f.maxLength ++ ")" else "TEXT")
    ∧ (f.type = GoType.tTime →
        getSQLType f d = if d = "mysql" then "DATETIME" else "TIMESTAMP")
    ∧ buildColumn f.name f d = f.name ++ " " ++ getSQLType f d ++ buildColumnSuffix f d := by
  refine ⟨?_, ?_, ?_, ?_, ?_, ?_, rfl⟩
  · intro h
    simp [getSQLType, h]
  · intro h
    rcases h with h | h | h | h | h | h | h | h <;> simp [getSQLType, h]
  · intro h
    rcases h with h | h <;> simp [getSQLType, h]
  · intro h
    rcases h with h | h <;> simp [getSQLType, h]
  · intro h
    simp [getSQLType, h]
  · intro h
    simp [getSQLType, h]

/-- Witness for `getSQLType_mapping`: the mapping evaluated on concrete
fields of several semantic types, on concrete dialects. -/
theorem getSQLType_mapping_witness :
    getSQLType { name := "a", type := GoType.tBool } "sqlite3" = "BOOLEAN"
    ∧ getSQLType { name := "b", type := GoType.tString, maxLength := 50 } "postgres"
        = "VARCHAR(50)"
    ∧ getSQLType { name := "c", type := GoType.tTime } "mysql" = "DATETIME"
    ∧ getSQLType { name := "d", type := GoType.tUint32 } "sqlite3" = "INTEGER"
    ∧ getSQLType { name := "e", type := GoType.tInt64 } "sqlite3" = "BIGINT" := by
  refine ⟨(getSQLType_mapping _ _).1 rfl, ?_, ?_, ?_, ?_⟩
  · rw [(getSQLType_mapping { name := "b", type := GoType.tString, maxLength := 50 }
      "postgres").2.2.2.2.1 rfl]
    decide
  · rw [(getSQLType_mapping { name := "c", type := GoType.tTime } "mysql").2.2.2.2.2.1 rfl]
    decide
  · exact (getSQLType_mapping _ _).2.1 (Or.inr (Or.inr (Or.inr (Or.inr (Or.inr (Or.inr
      (Or.inr rfl)))))))
  · exact (getSQLType_mapping _ _).2.2.1 (Or.inl rfl)

/-! ## Claim theorems: serializer construction -/

/-- C10: `AddField` under an existing name replaces the field entirely: the
stored field is the supplied options applied in order to a fresh field whose
required flag is false, whose validator list is empty and whose source field
is the given name — independently of whatever field (required flags,
model-derived validators) was stored before; fields under other names are
untouched. -/
theorem addField_replaces (s : Serializer) (name : String) (ty : GoType)
    (opts : List (SField → SField)) :
    lookupA name (s.addField name ty opts).fields
      = some (opts.foldl (fun f o => o f) (freshField name ty))
    ∧ (freshField name ty).required = false
    ∧ (freshField name ty).validators = []
    ∧ (freshField name ty).sourceField = name
    ∧ (∀ k, k ≠ name → lookupA k (s.addField name ty opts).fields = lookupA k s.fields) := by
  refine ⟨?_, rfl, rfl, rfl, ?_⟩
  · exact lookupA_insertA_self name _ s.fields
  · intro k hk
    exact lookupA_insertA_ne k name _ s.fields (Ne.symm hk)

/-- Witness for `addField_replaces`: re-adding a field that the model derived
as required (not-null, no default) yields a field that is no longer required
and has lost the derived max-length validator. -/
theorem addField_replaces_witness :
    lookupA "username"
        ((newSerializer (Model.mk "users"
            [("username",
              { name := "username", type := GoType.tString, notNull := true,
                maxLength := 50 })])).addField "username" GoType.tString []).fields
      = some (freshField "username" GoType.tString)
    ∧ lookupA "other"
        ((newSerializer (Model.mk "users"
            [("username",
              { name := "username", type := GoType.tString, notNull := true,
                maxLength := 50 })])).addField "username" GoType.tString []).fields
      = none := by
  constructor
  · exact (addField_replaces _ "username" GoType.tString []).1
  · rw [(addField_replaces _ "username" GoType.tString []).2.2.2.2 "other" (by decide)]
    decide

/-- If a key is absent from an association list, inserting it appends. -/
theorem insertA_eq_append {α : Type} (k : String) (v : α) (l : List (String × α))
    (h : lookupA k l = none) : insertA k v l = l ++ [(k, v)] := by
  induction l with
  | nil => rfl
  | cons p rest ih =>
    obtain ⟨k', v'⟩ := p
    by_cases hk : k' = k
    · simp [hk] at h
    · simp [hk] at h ⊢
      exact ih h

/-- Keys absent from a list have `none` lookups. -/
theorem lookupA_eq_none_of_not_mem {α : Type} (k : String) (l : List (String × α))
    (h : k ∉ l.map Prod.fst) : lookupA k l = none := by
  induction l with
  | nil => rfl
  | cons p rest ih =>
    obtain ⟨k', v'⟩ := p
    simp only [List.map_cons, List.mem_cons, not_or] at h
    have hne : k' ≠ k := fun hh => h.1 hh.symm
    simp [hne, ih h.2]

/-- Lookup distributes over list append, preferring the left list. -/
theorem lookupA_append {α : Type} (k : String) (l1 l2 : List (String × α)) :
    lookupA k (l1 ++ l2) =
      match lookupA k l1 with
      | some v => some v
      | none => lookupA k l2 := by
  induction l1 with
  | nil => simp
  | cons p rest ih =>
    obtain ⟨k', v'⟩ := p
    by_cases h : k' = k <;> simp [h, ih]

/-- The `serializer.New` field-building fold, over a field list with
duplicate-free keys, produces exactly the derived field list in order. -/
theorem newSerializer_fold (l : List (String × ModelField))
    (hnd : (l.map Prod.fst).Nodup) :
    ∀ acc : List (String × SField),
      (∀ p ∈ l, lookupA p.1 acc = none) →
      l.foldl (fun acc p => insertA p.1 (deriveField p.1 p.2) acc) acc
        = acc ++ l.map (fun p => (p.1, deriveField p.1 p.2)) := by
  induction l with
  | nil =>
    intro acc _
    simp
  | cons p rest ih =>
    intro acc hacc
    simp only [List.map_cons, List.nodup_cons] at hnd
    have h1 : lookupA p.1 acc = none := hacc p (List.mem_cons_self p rest)
    simp only [List.foldl_cons, insertA_eq_append p.1 _ acc h1]
    rw [ih hnd.2 (acc ++ [(p.1, deriveField p.1 p.2)]) ?_]
    · simp
    · intro q hq
      have hne : q.1 ≠ p.1 := by
        intro he
        exact hnd.1 (he ▸ List.mem_map.mpr ⟨q, hq, rfl⟩)
      rw [lookupA_append]
      simp [hacc q (List.mem_cons_of_mem p hq), Ne.symm hne]

/-- C7: constructing a serializer from a model derives exactly one serializer
field per model field (same keys, in the model's field order); a derived
field is required exactly when the model field is not-null and has no
default, its source field is its own name, its type is the model field's
type, and a string-typed field with positive max length carries exactly the
automatic max-length validator (all other fields carry none). -/
theorem newSerializer_correct (m : Model) (hkeys : (m.fields.map Prod.fst).Nodup) :
    (newSerializer m).fields.map Prod.fst = m.fields.map Prod.fst
    ∧ (newSerializer m).fields.length = m.fields.length
    ∧ ∀ n mf, (n, mf) ∈ m.fields →
        lookupA n (newSerializer m).fields = some (deriveField n mf)
        ∧ (deriveField n mf).required = (mf.notNull && mf.default.isNone)
        ∧ (deriveField n mf).validators
            = (if 0 < mf.maxLength ∧ mf.type = GoType.tString
               then [ValidatorSpec.maxLen mf.maxLength] else [])
        ∧ (deriveField n mf).sourceField = n
        ∧ (deriveField n mf).type = mf.type := by
  have hf : (newSerializer m).fields = m.fields.map (fun p => (p.1, deriveField p.1 p.2)) := by
    have := newSerializer_fold m.fields hkeys [] (fun p _ => rfl)
    simpa [newSerializer] using this
  refine ⟨?_, ?_, ?_⟩
  · rw [hf]
    simp
  · rw [hf]
    simp
  · intro n mf hmem
    refine ⟨?_, rfl, rfl, rfl, rfl⟩
    rw [hf]
    have hnd2 : ((m.fields.map (fun p => (p.1, deriveField p.1 p.2))).map Prod.fst).Nodup := by
      simpa [Function.comp] using hkeys
    exact lookupA_eq_some_of_mem_nodup hnd2
      (List.mem_map.mpr ⟨(n, mf), hmem, rfl⟩)

/-- Witness for `newSerializer_correct` on a concrete two-field model: the
not-null no-default string field comes out required with the automatic
max-length validator. -/
theorem newSerializer_correct_witness :
    lookupA "username"
        (newSerializer (Model.mk "users"
          [("id", { name := "id", type := GoType.tInt, primaryKey := true }),
           ("username",
            { name := "username", type := GoType.tString, notNull := true,
              maxLength := 50 })])).fields
      = some (deriveField "username"
          { name := "username", type := GoType.tString, notNull := true, maxLength := 50 })
    ∧ (deriveField "username"
        { name := "username", type := GoType.tString, notNull := true,
          maxLength := 50 }).required = true
    ∧ (deriveField "username"
        { name := "username", type := GoType.tString, notNull := true,
          maxLength := 50 }).validators = [ValidatorSpec.maxLen 50] := by
  have h := (newSerializer_correct (Model.mk "users"
      [("id", { name := "id", type := GoType.tInt, primaryKey := true }),
       ("username",
        { name := "username", type := GoType.tString, notNull := true,
          maxLength := 50 })]) (by decide)).2.2 "username"
      { name := "username", type := GoType.tString, notNull := true, maxLength := 50 }
      (by decide)
  exact ⟨h.1, by decide, by decide⟩

/-! ## Claim theorems: Serialize -/

/-- A membership in an insert comes from the list or is the inserted pair. -/
theorem mem_insertA {α : Type} {k k' : String} {v v' : α} {l : List (String × α)}
    (h : (k, v) ∈ insertA k' v' l) : (k, v) ∈ l ∨ (k = k' ∧ v = v') := by
  induction l with
  | nil =>
    simp [insertA] at h
    exact Or.inr h
  | cons p rest ih =>
    obtain ⟨k₀, v₀⟩ := p
    by_cases h₀ : k₀ = k'
    · simp [h₀] at h
      rcases h with h | h
      · exact Or.inr h
      · exact Or.inl (List.mem_cons_of_mem _ h)
    · simp [h₀] at h
      rcases h with h | h
      · exact Or.inl (by simp [h])
      · rcases ih h with h₁ | h₁
        · exact Or.inl (List.mem_cons_of_mem _ h₁)
        · exact Or.inr h₁

/-- One struct-branch step either leaves the accumulator alone or inserts
under a key bound to a non-write-only field. -/
theorem serializeStructStep_cases (s : Serializer) (acc : List (String × GoValue))
    (f : GoStructField) :
    serializeStructStep s acc f = acc
    ∨ ∃ name, (∃ sf, lookupA name s.fields = some sf ∧ sf.writeOnly = false)
        ∧ serializeStructStep s acc f = insertA name f.value acc := by
  unfold serializeStructStep
  by_cases he : f.exported = false
  · rw [if_pos he]
    exact Or.inl rfl
  · rw [if_neg he]
    rcases hj : jsonFieldName f with _ | name
    · exact Or.inl rfl
    · dsimp only
      rcases hl : lookupA name s.fields with _ | sf
      · exact Or.inl rfl
      · dsimp only
        by_cases hw : sf.writeOnly = true
        · rw [if_pos hw]
          exact Or.inl rfl
        · rw [if_neg hw]
          exact Or.inr ⟨name, ⟨sf, hl, by simpa using hw⟩, rfl⟩

/-- One map-branch step either leaves the accumulator alone or inserts under
a key bound to a non-write-only field. -/
theorem serializeMapStep_cases (s : Serializer) (acc : List (String × GoValue))
    (p : String × GoValue) :
    serializeMapStep s acc p = acc
    ∨ ∃ name, (∃ sf, lookupA name s.fields = some sf ∧ sf.writeOnly = false)
        ∧ serializeMapStep s acc p = insertA name p.2 acc := by
  unfold serializeMapStep
  rcases hl : lookupA p.1 s.fields with _ | sf
  · exact Or.inl rfl
  · dsimp only
    by_cases hw : sf.writeOnly = true
    · rw [if_pos hw]
      exact Or.inl rfl
    · rw [if_neg hw]
      exact Or.inr ⟨p.1, ⟨sf, hl, by simpa using hw⟩, rfl⟩

/-- Every pair in the struct-branch fold of `Serialize` either was in the
accumulator or has a key bound to a non-write-only serializer field. -/
theorem serializeStruct_mem (s : Serializer) (k : String) (v : GoValue) :
    ∀ (fs : List GoStructField) (acc : List (String × GoValue)),
      (k, v) ∈ fs.foldl (serializeStructStep s) acc →
      (k, v) ∈ acc ∨ ∃ sf, lookupA k s.fields = some sf ∧ sf.writeOnly = false := by
  intro fs
  induction fs with
  | nil =>
    intro acc h
    exact Or.inl h
  | cons f rest ih =>
    intro acc h
    rcases ih _ h with h₁ | h₁
    · rcases serializeStructStep_cases s acc f with hc | ⟨name, hgood, hc⟩
      · rw [hc] at h₁
        exact Or.inl h₁
      · rw [hc] at h₁
        rcases mem_insertA h₁ with h₂ | h₂
        · exact Or.inl h₂
        · refine Or.inr ?_
          rw [h₂.1]
          exact hgood
    · exact Or.inr h₁

/-- Every pair in the map-branch fold of `Serialize` either was in the
accumulator or has a key bound to a non-write-only serializer field. -/
theorem serializeMap_mem (s : Serializer) (k : String) (v : GoValue) :
    ∀ (entries : List (String × GoValue)) (acc : List (String × GoValue)),
      (k, v) ∈ entries.foldl (serializeMapStep s) acc →
      (k, v) ∈ acc ∨ ∃ sf, lookupA k s.fields = some sf ∧ sf.writeOnly = false := by
  intro entries
  induction entries with
  | nil =>
    intro acc h
    exact Or.inl h
  | cons p rest ih =>
    intro acc h
    rcases ih _ h with h₁ | h₁
    · rcases serializeMapStep_cases s acc p with hc | ⟨name, hgood, hc⟩
      · rw [hc] at h₁
        exact Or.inl h₁
      · rw [hc] at h₁
        rcases mem_insertA h₁ with h₂ | h₂
        · exact Or.inl h₂
        · refine Or.inr ?_
          rw [h₂.1]
          exact hgood
    · exact Or.inr h₁

/-- C3: `Serialize` fails exactly when the once-dereferenced input is neither
struct-shaped nor map-shaped, and on success every key of the output mapping
is bound in the serializer's field set to a field that is not write-only (so
write-only fields and undeclared keys never appear in the output). -/
theorem serialize_correct (s : Serializer) (d : GoData) :
    ((∃ e, s.serialize d = .error e) ↔ isStructOrMap (derefOnce d) = false)
    ∧ (∀ r, s.serialize d = .ok r → ∀ k v, (k, v) ∈ r →
        ∃ sf, lookupA k s.fields = some sf ∧ sf.writeOnly = false) := by
  constructor
  · unfold Serializer.serialize
    rcases hd : derefOnce d with fs | entries | inner | _ <;> simp [isStructOrMap]
  · intro r hr k v hmem
    unfold Serializer.serialize at hr
    rcases hd : derefOnce d with fs | entries | inner | _ <;> rw [hd] at hr
    · rcases Except.ok.inj hr with rfl
      rcases serializeStruct_mem s k v fs [] hmem with h | h
      · simp at h
      · exact h
    · rcases Except.ok.inj hr with rfl
      rcases serializeMap_mem s k v entries [] hmem with h | h
      · simp at h
      · exact h
    · exact absurd hr (fun h => Except.noConfusion h)
    · exact absurd hr (fun h => Except.noConfusion h)

/-- A concrete serializer with a write-only password field, for witnesses. -/
def demoSerializer : Serializer :=
  { model := demoModel
    fields :=
      [("id", { name := "id", type := GoType.tInt, sourceField := "id" }),
       ("password",
        { name := "password", type := GoType.tString, writeOnly := true,
          sourceField := "password" })] }

/-- Witness for `serialize_correct`: a concrete map input containing the
write-only field and an undeclared key serializes successfully, and the one
key of the output is a declared non-write-only field. -/
theorem serialize_correct_witness :
    demoSerializer.serialize (GoData.mapData
        [("password", GoValue.vString "x"), ("junk", GoValue.vInt 0), ("id", GoValue.vInt 7)])
      = .ok [("id", GoValue.vInt 7)]
    ∧ (∃ sf, lookupA "id" demoSerializer.fields = some sf ∧ sf.writeOnly = false)
    ∧ (∃ e, demoSerializer.serialize GoData.otherData = .error e) := by
  refine ⟨by decide, ?_, ?_⟩
  · exact (serialize_correct demoSerializer (GoData.mapData
      [("password", GoValue.vString "x"), ("junk", GoValue.vInt 0), ("id", GoValue.vInt 7)])).2
      [("id", GoValue.vInt 7)] (by decide) "id" (GoValue.vInt 7) (by decide)
  · exact (serialize_correct demoSerializer GoData.otherData).1.mpr (by decide)

/-! ## Claim theorems: Create/Update guards -/

/-- The INSERT collection loop fails whenever some payload key is not a
declared field of the model. -/
theorem collectInsertCols_error (driver : String) (model : Model) (t : String) :
    ∀ (data : List (String × GoValue)) (i : Nat),
      (∃ c v, (c, v) ∈ data ∧ lookupA c model.fields = none) →
      ∃ e, collectInsertCols driver model t data i = .error e := by
  intro data
  induction data with
  | nil =>
    intro i h
    rcases h with ⟨c, v, hmem, _⟩
    simp at hmem
  | cons p rest ih =>
    intro i h
    obtain ⟨c₀, v₀⟩ := p
    unfold collectInsertCols
    rcases hl : lookupA c₀ model.fields with _ | mf
    · exact ⟨_, rfl⟩
    · dsimp only
      rcases h with ⟨c, v, hmem, hc⟩
      rcases List.mem_cons.mp hmem with h₁ | h₁
      · obtain ⟨rfl, rfl⟩ := Prod.mk.injEq .. ▸ h₁
        rw [hl] at hc
        exact absurd hc (fun hh => Option.noConfusion hh)
      · rcases ih (i + 1) ⟨c, v, h₁, hc⟩ with ⟨e, he⟩
        rw [he]
        exact ⟨e, rfl⟩

/-- The UPDATE SET-collection loop fails whenever some payload key is not a
declared field of the model. -/
theorem collectSetCols_error (driver : String) (model : Model) (t : String) (pk : String) :
    ∀ (data : List (String × GoValue)) (i : Nat),
      (∃ c v, (c, v) ∈ data ∧ lookupA c model.fields = none) →
      ∃ e, collectSetCols driver model t pk data i = .error e := by
  intro data
  induction data with
  | nil =>
    intro i h
    rcases h with ⟨c, v, hmem, _⟩
    simp at hmem
  | cons p rest ih =>
    intro i h
    obtain ⟨c₀, v₀⟩ := p
    unfold collectSetCols
    rcases hl : lookupA c₀ model.fields with _ | mf
    · exact ⟨_, rfl⟩
    · dsimp only
      rcases h with ⟨c, v, hmem, hc⟩
      have hrest : ∃ c v, (c, v) ∈ rest ∧ lookupA c model.fields = none := by
        rcases List.mem_cons.mp hmem with h₁ | h₁
        · obtain ⟨rfl, rfl⟩ := Prod.mk.injEq .. ▸ h₁
          rw [hl] at hc
          exact absurd hc (fun hh => Option.noConfusion hh)
        · exact ⟨c, v, h₁, hc⟩
      by_cases hp : c₀ = pk
      · rw [if_pos hp]
        exact ih i hrest
      · rw [if_neg hp]
        rcases ih (i + 1) hrest with ⟨e, he⟩
        rw [he]
        exact ⟨e, rfl⟩

/-- C5: `Create` and `Update` each fail whenever the table is not registered
or some payload key is not a declared field of the registered model, and in
those cases no SQL statement is executed (the execution trace is empty, so
the database is untouched). -/
theorem createUpdate_guard (o : ORM) (db : String → List GoValue → Except String Int)
    (t : String) (id : GoValue) (data : List (String × GoValue)) :
    (lookupA t o.models = none →
      (∃ e, (o.create db t data).1 = .error e) ∧ (o.create db t data).2 = []
      ∧ (∃ e, (o.update db t id data).1 = .error e) ∧ (o.update db t id data).2 = [])
    ∧ (∀ model, lookupA t o.models = some model →
        (∃ c v, (c, v) ∈ data ∧ lookupA c model.fields = none) →
        (∃ e, (o.create db t data).1 = .error e) ∧ (o.create db t data).2 = []
        ∧ (∃ e, (o.update db t id data).1 = .error e) ∧ (o.update db t id data).2 = []) := by
  constructor
  · intro h
    unfold ORM.create ORM.update
    rw [h]
    exact ⟨⟨_, rfl⟩, rfl, ⟨_, rfl⟩, rfl⟩
  · intro model h hbad
    unfold ORM.create ORM.update
    rw [h]
    dsimp only
    constructor
    · rcases collectInsertCols_error o.driver model t data 1 hbad with ⟨e, he⟩
      rw [he]
      exact ⟨e, rfl⟩
    refine ⟨?_, ?_, ?_⟩
    · rcases collectInsertCols_error o.driver model t data 1 hbad with ⟨e, he⟩
      rw [he]
    · rcases hpk : firstPrimaryKey model.fields with _ | pk
      · exact ⟨_, rfl⟩
      · dsimp only
        rcases collectSetCols_error o.driver model t pk data 1 hbad with ⟨e, he⟩
        rw [he]
        exact ⟨e, rfl⟩
    · rcases hpk : firstPrimaryKey model.fields with _ | pk
      · rfl
      · dsimp only
        rcases collectSetCols_error o.driver model t pk data 1 hbad with ⟨e, he⟩
        rw [he]

/-- Witness for `createUpdate_guard`: with only the demo model registered,
creating into an unregistered table and updating with an undeclared payload
key both fail without touching the database. -/
theorem createUpdate_guard_witness :
    (∃ e, ((ORM.mk "sqlite3" [("users", demoModel)]).create (fun _ _ => .ok 1)
        "orders" [("id", GoValue.vInt 1)]).1 = .error e)
    ∧ ((ORM.mk "sqlite3" [("users", demoModel)]).update (fun _ _ => .ok 1)
        "users" (GoValue.vInt 1) [("nope", GoValue.vInt 2)]).2 = [] := by
  constructor
  · exact ((createUpdate_guard (ORM.mk "sqlite3" [("users", demoModel)]) (fun _ _ => .ok 1)
      "orders" (GoValue.vInt 1) [("id", GoValue.vInt 1)]).1 (by decide)).1
  · exact ((createUpdate_guard (ORM.mk "sqlite3" [("users", demoModel)]) (fun _ _ => .ok 1)
      "users" (GoValue.vInt 1) [("nope", GoValue.vInt 2)]).2 demoModel (by decide)
      ⟨"nope", GoValue.vInt 2, by decide, by decide⟩).2.2.2

/-! ## Claim theorems: Validate versus Deserialize on undeclared keys -/

/-- The per-key pass of `Validate` fails when the payload contains a key
that is not in the field set (that key's check reports field-not-found). -/
theorem validateAll_error_of_undeclared (s : Serializer) :
    ∀ data : List (String × GoValue),
      (∃ k v, (k, v) ∈ data ∧ lookupA k s.fields = none) →
      ∃ e, validateAll s data = .error e := by
  intro data
  induction data with
  | nil =>
    intro h
    rcases h with ⟨k, v, hmem, _⟩
    simp at hmem
  | cons p rest ih =>
    intro h
    obtain ⟨k₀, v₀⟩ := p
    unfold validateAll
    rcases hv : s.validateField k₀ v₀ with e | u
    · exact ⟨e, rfl⟩
    · dsimp only
      rcases h with ⟨k, v, hmem, hk⟩
      rcases List.mem_cons.mp hmem with h₁ | h₁
      · obtain ⟨rfl, rfl⟩ := Prod.mk.injEq .. ▸ h₁
        unfold Serializer.validateField at hv
        rw [hk] at hv
        exact absurd hv (fun hh => Except.noConfusion hh)
      · exact ih ⟨k, v, h₁, hk⟩

/-- Lookup of a key whose filter predicate holds is unchanged by filtering
an association list with a key-determined predicate. -/
theorem lookupA_filter {α : Type} (pred : String → Bool) (k : String)
    (hk : pred k = true) :
    ∀ l : List (String × α),
      lookupA k (l.filter (fun p => pred p.1)) = lookupA k l := by
  intro l
  induction l with
  | nil => rfl
  | cons p rest ih =>
    obtain ⟨k', v'⟩ := p
    by_cases he : k' = k
    · subst he
      simp [List.filter_cons, hk]
    · by_cases hp : pred k' = true <;> simp [List.filter_cons, hp, he, ih]

/-- The default-filling pass only consults the payload through lookups of
field names, so two payloads agreeing on those lookups fill identically. -/
theorem applyDefaultsAux_congr (data data' : List (String × GoValue)) :
    ∀ (fl : List (String × SField)) (acc : List (String × GoValue)),
      (∀ p ∈ fl, lookupA p.1 data = lookupA p.1 data') →
      applyDefaultsAux data fl acc = applyDefaultsAux data' fl acc := by
  intro fl
  induction fl with
  | nil =>
    intro acc _
    rfl
  | cons p rest ih =>
    intro acc hagree
    unfold applyDefaultsAux
    rw [hagree p (List.mem_cons_self p rest)]
    exact ih _ (fun q hq => hagree q (List.mem_cons_of_mem p hq))

/-- The copy-and-validate pass ignores payload entries whose key is not in
the field set: filtering them away changes nothing. -/
theorem copyValidate_filter (s : Serializer) :
    ∀ (data : List (String × GoValue)) (acc : List (String × GoValue)),
      copyValidate s (data.filter (fun p => (lookupA p.1 s.fields).isSome)) acc
        = copyValidate s data acc := by
  intro data
  induction data with
  | nil =>
    intro acc
    rfl
  | cons p rest ih =>
    intro acc
    obtain ⟨k₀, v₀⟩ := p
    rw [List.filter_cons]
    rcases hl : lookupA k₀ s.fields with _ | field
    · rw [if_neg (by simp [hl])]
      rw [ih]
      conv_rhs => unfold copyValidate
      rw [hl]
    · rw [if_pos (by simp [hl])]
      conv_lhs => unfold copyValidate
      conv_rhs => unfold copyValidate
      rw [hl]
      dsimp only
      by_cases hro : field.readOnly = true
      · rw [if_pos hro, if_pos hro]
        exact ih _
      · rw [if_neg hro, if_neg hro]
        rcases hv : s.validateField k₀ v₀ with e | u
        · rfl
        · dsimp only
          exact ih _

/-- C9: `Validate` returns an error whenever the payload contains a key that
is not declared in the serializer's field set, whereas `Deserialize` is
unaffected by such keys — filtering undeclared keys out of the payload
leaves its result unchanged (so the two operations disagree on payloads
containing undeclared keys that otherwise deserialize successfully). -/
theorem validate_vs_deserialize (s : Serializer) (data : List (String × GoValue)) :
    ((∃ k v, (k, v) ∈ data ∧ lookupA k s.fields = none) →
      ∃ e, s.validate data = .error e)
    ∧ s.deserialize data
        = s.deserialize (data.filter (fun p => (lookupA p.1 s.fields).isSome)) := by
  constructor
  · intro h
    unfold Serializer.validate
    rcases hf : s.fields.find? (fun p => p.2.required && (lookupA p.1 data).isNone)
      with _ | q
    · rw [hf]
      exact validateAll_error_of_undeclared s data h
    · rw [hf]
      exact ⟨_, rfl⟩
  · unfold Serializer.deserialize
    have hAD : applyDefaults s (data.filter (fun p => (lookupA p.1 s.fields).isSome))
        = applyDefaults s data := by
      unfold applyDefaults
      refine applyDefaultsAux_congr _ _ s.fields [] (fun p hp => ?_)
      have hsome : (lookupA p.1 s.fields).isSome = true := by
        rcases hl : lookupA p.1 s.fields with _ | f
        · exact absurd hl (lookupA_isSome_of_mem hp)
        · rfl
      rw [lookupA_filter (fun k => (lookupA k s.fields).isSome) p.1 hsome data]
    rw [hAD, copyValidate_filter s data (applyDefaults s data)]

/-- Witness for `validate_vs_deserialize`: on the demo serializer, a payload
with the undeclared key junk fails `Validate` but deserializes exactly as
the payload without it. -/
theorem validate_vs_deserialize_witness :
    (∃ e, demoSerializer.validate [("id", GoValue.vInt 7), ("junk", GoValue.vInt 0)]
      = .error e)
    ∧ demoSerializer.deserialize [("id", GoValue.vInt 7), ("junk", GoValue.vInt 0)]
        = demoSerializer.deserialize [("id", GoValue.vInt 7)] := by
  constructor
  · exact (validate_vs_deserialize demoSerializer
      [("id", GoValue.vInt 7), ("junk", GoValue.vInt 0)]).1
      ⟨"junk", GoValue.vInt 0, by decide, by decide⟩
  · have h := (validate_vs_deserialize demoSerializer
      [("id", GoValue.vInt 7), ("junk", GoValue.vInt 0)]).2
    rw [h]
    rfl

/-! ## Claim theorems: Deserialize -/

/-- A successful copy-and-validate pass leaves the lookup of a source name
untouched when no processed payload entry writes to it. -/
theorem copyValidate_frozen (s : Serializer) (src : String) :
    ∀ (l acc r : List (String × GoValue)),
      copyValidate s l acc = .ok r →
      (∀ p ∈ l, ∀ field, lookupA p.1 s.fields = some field → field.readOnly = false →
        field.sourceField ≠ src) →
      lookupA src r = lookupA src acc := by
  intro l
  induction l with
  | nil =>
    intro acc r h _
    unfold copyValidate at h
    cases Except.ok.inj h
    rfl
  | cons p rest ih =>
    intro acc r h hfr
    obtain ⟨k₀, v₀⟩ := p
    unfold copyValidate at h
    rcases hl : lookupA k₀ s.fields with _ | field
    · rw [hl] at h
      exact ih acc r h (fun q hq => hfr q (List.mem_cons_of_mem _ hq))
    · rw [hl] at h
      dsimp only at h
      by_cases hro : field.readOnly = true
      · rw [if_pos hro] at h
        exact ih acc r h (fun q hq => hfr q (List.mem_cons_of_mem _ hq))
      · rw [if_neg hro] at h
        rcases hv : s.validateField k₀ v₀ with e | u
        · rw [hv] at h
          exact absurd h (fun hh => Except.noConfusion hh)
        · rw [hv] at h
          dsimp only at h
          have hne : field.sourceField ≠ src :=
            hfr (k₀, v₀) (List.mem_cons_self _ _) field hl (by simpa using hro)
          rw [ih _ r h (fun q hq => hfr q (List.mem_cons_of_mem _ hq))]
          exact lookupA_insertA_ne src field.sourceField v₀ acc hne

/-- The default-filling pass leaves the lookup of a source name untouched
when no field writes its default to it. -/
theorem applyDefaultsAux_frozen (data : List (String × GoValue)) (src : String) :
    ∀ (fl : List (String × SField)) (acc : List (String × GoValue)),
      (∀ q ∈ fl, q.2.readOnly = false → q.2.default ≠ none →
        lookupA q.1 data = none → q.2.sourceField ≠ src) →
      lookupA src (applyDefaultsAux data fl acc) = lookupA src acc := by
  intro fl
  induction fl with
  | nil =>
    intro acc _
    rfl
  | cons q rest ih =>
    intro acc hq
    have hrest := fun p hp => hq p (List.mem_cons_of_mem q hp)
    unfold applyDefaultsAux
    by_cases hro : q.2.readOnly = true
    · rw [if_pos hro]
      exact ih acc hrest
    · rw [if_neg hro]
      rcases hd : q.2.default with _ | d
      · exact ih acc hrest
      · dsimp only
        by_cases hlk : lookupA q.1 data = none
        · rw [if_pos hlk]
          rw [ih _ hrest]
          refine lookupA_insertA_ne src q.2.sourceField d acc ?_
          refine hq q (List.mem_cons_self _ _) (by simpa using hro) ?_ hlk
          rw [hd]
          exact fun hh => Option.noConfusion hh
        · rw [if_neg hlk]
          exact ih acc hrest

/-- The default-filling pass keeps a source name bound to a value when every
field that would write to that source name writes exactly that value. -/
theorem applyDefaultsAux_keep (data : List (String × GoValue)) (src : String)
    (dv : GoValue) :
    ∀ (fl : List (String × SField)) (acc : List (String × GoValue)),
      lookupA src acc = some dv →
      (∀ q ∈ fl, q.2.readOnly = false → q.2.default ≠ none → lookupA q.1 data = none →
        q.2.sourceField = src → q.2.default = some dv) →
      lookupA src (applyDefaultsAux data fl acc) = some dv := by
  intro fl
  induction fl with
  | nil =>
    intro acc hacc _
    exact hacc
  | cons q rest ih =>
    intro acc hacc hq
    have hrest := fun p hp => hq p (List.mem_cons_of_mem q hp)
    unfold applyDefaultsAux
    by_cases hro : q.2.readOnly = true
    · rw [if_pos hro]
      exact ih acc hacc hrest
    · rw [if_neg hro]
      rcases hd : q.2.default with _ | d
      · exact ih acc hacc hrest
      · dsimp only
        by_cases hlk : lookupA q.1 data = none
        · rw [if_pos hlk]
          by_cases hs : q.2.sourceField = src
          · have hdv : q.2.default = some dv :=
              hq q (List.mem_cons_self _ _) (by simpa using hro)
                (by rw [hd]; exact fun hh => Option.noConfusion hh) hlk hs
            have hd2 : d = dv := by
              rw [hd] at hdv
              exact Option.some.inj hdv
            refine ih _ ?_ hrest
            rw [hs, hd2]
            exact lookupA_insertA_self src dv acc
          · refine ih _ ?_ hrest
            rw [lookupA_insertA_ne src q.2.sourceField d acc hs]
            exact hacc
        · rw [if_neg hlk]
          exact ih acc hacc hrest

/-- If a non-read-only field with a default is absent from the payload and is
the only field whose source name is its source name, the default-filling
pass binds that source name to the default. -/
theorem applyDefaultsAux_writes (data : List (String × GoValue)) (n : String)
    (f : SField) (dv : GoValue) (hro : f.readOnly = false) (hdef : f.default = some dv)
    (hnd : lookupA n data = none) :
    ∀ (fl : List (String × SField)) (acc : List (String × GoValue)),
      (n, f) ∈ fl →
      (∀ q ∈ fl, q.2.sourceField = f.sourceField → q = (n, f)) →
      lookupA f.sourceField (applyDefaultsAux data fl acc) = some dv := by
  intro fl
  induction fl with
  | nil =>
    intro acc h _
    simp at h
  | cons q rest ih =>
    intro acc hmem H
    rcases List.mem_cons.mp hmem with h₁ | h₁
    · cases h₁.symm
      unfold applyDefaultsAux
      dsimp only
      rw [if_neg (by simp [hro]), hdef]
      dsimp only
      rw [if_pos hnd]
      refine applyDefaultsAux_keep data f.sourceField dv rest _
        (lookupA_insertA_self _ _ _) (fun q hq _ _ _ hs => ?_)
      have hqe := H q (List.mem_cons_of_mem _ hq) hs
      rw [hqe]
      exact hdef
    · unfold applyDefaultsAux
      exact ih _ h₁ (fun q hq => H q (List.mem_cons_of_mem _ hq))

/-- The required-field pass fails exactly when some required field's source
name is absent from the result. -/
theorem checkRequired_error_iff (s : Serializer) (r : List (String × GoValue)) :
    (∃ e, checkRequired s r = .error e) ↔
      ∃ p ∈ s.fields, p.2.required = true ∧ lookupA p.2.sourceField r = none := by
  unfold checkRequired
  rcases hf : s.fields.find? (fun p => p.2.required && (lookupA p.2.sourceField r).isNone)
    with _ | q
  · rw [hf]
    constructor
    · intro h
      rcases h with ⟨e, he⟩
      exact absurd he (fun hh => Except.noConfusion hh)
    · intro h
      rcases h with ⟨p, hp, hreq, hnone⟩
      have := List.find?_eq_none.mp hf p hp
      rw [hreq, hnone] at this
      simp at this
  · rw [hf]
    constructor
    · intro _
      have hpred := List.find?_some hf
      have hmem := List.mem_of_find?_eq_some hf
      rcases Bool.and_eq_true .. ▸ hpred with ⟨h₁, h₂⟩
      exact ⟨q, hmem, h₁, Option.isNone_iff_eq_none.mp h₂⟩
    · intro _
      exact ⟨_, rfl⟩

/-- The required-field pass returns its input unchanged on success. -/
theorem checkRequired_ok_eq (s : Serializer) (r₀ r : List (String × GoValue))
    (h : checkRequired s r₀ = .ok r) : r = r₀ := by
  unfold checkRequired at h
  rcases hf : s.fields.find? (fun p => p.2.required && (lookupA p.2.sourceField r₀).isNone)
    with _ | q
  · rw [hf] at h
    exact (Except.ok.inj h).symm
  · rw [hf] at h
    exact absurd h (fun hh => Except.noConfusion hh)

/-- The copy-and-validate pass returns the error of the first payload entry
that fails validation, after skipping or successfully validating all earlier
entries. -/
theorem copyValidate_first_error (s : Serializer) (n : String) (v : GoValue)
    (post : List (String × GoValue)) (e : String) (field : SField)
    (hl : lookupA n s.fields = some field) (hro : field.readOnly = false)
    (hv : s.validateField n v = .error e) :
    ∀ (pre : List (String × GoValue)) (acc : List (String × GoValue)),
      (∀ p ∈ pre, ∀ g, lookupA p.1 s.fields = some g →
        (g.readOnly = true ∨ s.validateField p.1 p.2 = .ok ())) →
      copyValidate s (pre ++ (n, v) :: post) acc = .error e := by
  intro pre
  induction pre with
  | nil =>
    intro acc _
    rw [List.nil_append]
    unfold copyValidate
    rw [hl]
    dsimp only
    rw [if_neg (by simp [hro]), hv]
  | cons p pre' ih =>
    intro acc hskip
    obtain ⟨k₀, v₀⟩ := p
    rw [List.cons_append]
    unfold copyValidate
    rcases hl₀ : lookupA k₀ s.fields with _ | g
    · exact ih acc (fun q hq => hskip q (List.mem_cons_of_mem _ hq))
    · dsimp only
      rcases hskip (k₀, v₀) (List.mem_cons_self _ _) g hl₀ with hg | hg
      · rw [if_pos hg]
        exact ih acc (fun q hq => hskip q (List.mem_cons_of_mem _ hq))
      · by_cases hgro : g.readOnly = true
        · rw [if_pos hgro]
          exact ih acc (fun q hq => hskip q (List.mem_cons_of_mem _ hq))
        · rw [if_neg hgro, hg]
          dsimp only
          exact ih _ (fun q hq => hskip q (List.mem_cons_of_mem _ hq))

/-- C2: `Deserialize` first fills defaults, then copies and validates the
payload, then checks required fields (conjunct a); a non-read-only field
with a default that is absent from the payload has its default bound to its
source name after the default pass and in any successful result (conjunct b,
assuming the serializer's source names are duplicate-free); the first payload
entry failing validation short-circuits and its error is returned (conjunct
c); once the copy pass has succeeded, `Deserialize` fails exactly when some
required field's source name is absent from the result (conjunct d); in
particular a payload missing a required no-default field fails (conjunct e),
while a missing default-bearing field is silently filled (conjunct b). -/
theorem deserialize_correct (s : Serializer) (data : List (String × GoValue))
    (hsrc : (s.fields.map (fun p => p.2.sourceField)).Nodup) :
    (s.deserialize data =
      match copyValidate s data (applyDefaults s data) with
      | .error e => .error e
      | .ok r => checkRequired s r)
    ∧ (∀ n f dv, (n, f) ∈ s.fields → f.readOnly = false → f.default = some dv →
        lookupA n data = none →
        lookupA f.sourceField (applyDefaults s data) = some dv
        ∧ ∀ r, s.deserialize data = .ok r → lookupA f.sourceField r = some dv)
    ∧ (∀ pre n v post e, data = pre ++ (n, v) :: post →
        (∀ p ∈ pre, ∀ g, lookupA p.1 s.fields = some g →
          (g.readOnly = true ∨ s.validateField p.1 p.2 = .ok ())) →
        ∀ field, lookupA n s.fields = some field → field.readOnly = false →
        s.validateField n v = .error e →
        s.deserialize data = .error e)
    ∧ (∀ r, copyValidate s data (applyDefaults s data) = .ok r →
        ((∃ e, s.deserialize data = .error e) ↔
          ∃ p ∈ s.fields, p.2.required = true ∧ lookupA p.2.sourceField r = none))
    ∧ (∀ n f, (n, f) ∈ s.fields → f.required = true → f.default = none →
        lookupA n data = none → ∃ e, s.deserialize data = .error e) := by
  have hinj : ∀ a ∈ s.fields, ∀ b ∈ s.fields, a.2.sourceField = b.2.sourceField → a = b :=
    fun a ha b hb hab => List.inj_on_of_nodup_map hsrc ha hb hab
  refine ⟨rfl, ?_, ?_, ?_, ?_⟩
  · intro n f dv hmem hro hdef hnd
    have hW : ∀ q ∈ s.fields, q.2.sourceField = f.sourceField → q = (n, f) :=
      fun q hq hs => hinj q hq (n, f) hmem hs
    have hAD : lookupA f.sourceField (applyDefaults s data) = some dv :=
      applyDefaultsAux_writes data n f dv hro hdef hnd s.fields [] hmem hW
    refine ⟨hAD, ?_⟩
    intro r hr
    unfold Serializer.deserialize at hr
    rcases hcv : copyValidate s data (applyDefaults s data) with e | r₀
    · rw [hcv] at hr
      dsimp only at hr
      exact absurd hr (fun hh => Except.noConfusion hh)
    · rw [hcv] at hr
      dsimp only at hr
      have hre : r = r₀ := checkRequired_ok_eq s r₀ r hr
      rw [hre]
      have hfroz : lookupA f.sourceField r₀ = lookupA f.sourceField (applyDefaults s data) := by
        refine copyValidate_frozen s f.sourceField data _ r₀ hcv ?_
        intro p hp g hg _ hgs
        have hpe : (p.1, g) = (n, f) :=
          hinj (p.1, g) (mem_of_lookupA_eq_some hg) (n, f) hmem hgs
        have hp1 : p.1 = n := congrArg Prod.fst hpe
        have : lookupA n data ≠ none := by
          rw [← hp1]
          exact lookupA_isSome_of_mem (show (p.1, p.2) ∈ data from hp)
        exact absurd hnd this
      rw [hfroz]
      exact hAD
  · intro pre n v post e hdata hskip field hl hro hv
    unfold Serializer.deserialize
    rw [hdata, copyValidate_first_error s n v post e field hl hro hv pre _ hskip]
  · intro r hcv
    unfold Serializer.deserialize
    rw [hcv]
    exact checkRequired_error_iff s r
  · intro n f hmem hreq hdef hnd
    have hW : ∀ q ∈ s.fields, q.2.sourceField = f.sourceField → q = (n, f) :=
      fun q hq hs => hinj q hq (n, f) hmem hs
    have hfr : ∀ q ∈ s.fields, q.2.readOnly = false → q.2.default ≠ none →
        lookupA q.1 data = none → q.2.sourceField ≠ f.sourceField := by
      intro q hq _ hqd _ hqs
      have hqe := hW q hq hqs
      rw [hqe] at hqd
      exact hqd hdef
    have hAD : lookupA f.sourceField (applyDefaults s data) = none := by
      unfold applyDefaults
      rw [applyDefaultsAux_frozen data f.sourceField s.fields [] hfr]
      rfl
    unfold Serializer.deserialize
    rcases hcv : copyValidate s data (applyDefaults s data) with e | r₀
    · exact ⟨e, rfl⟩
    · dsimp only
      have hfroz : lookupA f.sourceField r₀ = lookupA f.sourceField (applyDefaults s data) := by
        refine copyValidate_frozen s f.sourceField data _ r₀ hcv ?_
        intro p hp g hg _ hgs
        have hpe : (p.1, g) = (n, f) :=
          hinj (p.1, g) (mem_of_lookupA_eq_some hg) (n, f) hmem hgs
        have hp1 : p.1 = n := congrArg Prod.fst hpe
        have : lookupA n data ≠ none := by
          rw [← hp1]
          exact lookupA_isSome_of_mem (show (p.1, p.2) ∈ data from hp)
        exact absurd hnd this
      exact (checkRequired_error_iff s r₀).mpr
        ⟨(n, f), hmem, hreq, by rw [hfroz]; exact hAD⟩

/-- A serializer with a required no-default field and a default-bearing
field, for the `deserialize_correct` witness. -/
def demoSerializer2 : Serializer :=
  { model := demoModel
    fields :=
      [("name",
        { name := "name", type := GoType.tString, required := true, sourceField := "name" }),
       ("qty",
        { name := "qty", type := GoType.tInt, default := some (GoValue.vInt 1),
          sourceField := "qty" })] }

/-- Witness for `deserialize_correct` at concrete payloads: the missing
default-bearing qty field is filled from its default, the missing required
name field makes deserialization fail, and a type-mismatched name value is
returned as the first validation error. -/
theorem deserialize_correct_witness :
    (∀ r, demoSerializer2.deserialize [("name", GoValue.vString "a")] = .ok r →
      lookupA "qty" r = some (GoValue.vInt 1))
    ∧ (∃ e, demoSerializer2.deserialize [] = .error e)
    ∧ demoSerializer2.deserialize [("name", GoValue.vInt 3)]
        = .error "field name has invalid type" := by
  refine ⟨?_, ?_, ?_⟩
  · exact ((deserialize_correct demoSerializer2 [("name", GoValue.vString "a")]
      (by decide)).2.1 "qty"
      { name := "qty", type := GoType.tInt, default := some (GoValue.vInt 1),
        sourceField := "qty" } (GoValue.vInt 1) (by decide) (by decide) (by decide)
      (by decide)).2
  · exact (deserialize_correct demoSerializer2 [] (by decide)).2.2.2.2 "name"
      { name := "name", type := GoType.tString, required := true, sourceField := "name" }
      (by decide) (by decide) (by decide) (by decide)
  · exact (deserialize_correct demoSerializer2 [("name", GoValue.vInt 3)]
      (by decide)).2.2.1 [] "name" (GoValue.vInt 3) [] "field name has invalid type" rfl
      (by intro p hp; simp at hp)
      { name := "name", type := GoType.tString, required := true, sourceField := "name" }
      (by decide) (by decide) (by decide)

end Framego
